import Mathlib

/-!
Shallow embedding of `src/server.js`, a WebSocket chat relay.  The three
global mutable bindings (`userState`, `messageHistory`, `lastActiveTimes`)
become a `ServerState` record; the HTTP registration handler, the
per-connection message/close handlers and the reaper sweep become pure
functions from state to state plus the list of sends they perform.
-/

set_option autoImplicit false

namespace WsServer

/-- A record stored in the `userState` array.  Users created by the
registration endpoint are `{id: randomUUID(), name}`; users pushed by the
`join` branch are the JSON-parsed `receivedMSG.user` object.  Server-side
WebSocket objects are identified by numeric channel ids; a JSON-parsed
object can never be reference-equal (`===`) to such an object, so the `ws`
field of every stored user is `none`. -/
structure User where
  uid : Option String
  name : String
  ws : Option Nat
deriving DecidableEq, Repr

/-- Association list modelling the plain object `lastActiveTimes`
(user name to `Date.now()` timestamp in milliseconds). -/
abbrev LastActive := List (String × Nat)

/-- Property read `lastActiveTimes[n]` (`none` is JS `undefined`). -/
def laGet (la : LastActive) (n : String) : Option Nat :=
  (la.find? (fun p => p.1 == n)).map (fun p => p.2)

/-- Assignment `lastActiveTimes[n] = t`: overwrite the key if present,
otherwise add it. -/
def laSet (n : String) (t : Nat) (la : LastActive) : LastActive :=
  if (la.find? (fun p => p.1 == n)).isSome then
    la.map (fun p => if p.1 == n then (n, t) else p)
  else
    la ++ [(n, t)]

/-- The `delete lastActiveTimes[n]` operation. -/
def laDel (n : String) (la : LastActive) : LastActive :=
  la.filter (fun p => p.1 != n)

/-- The three global mutable bindings of `server.js`. -/
structure ServerState where
  userState : List User
  messageHistory : List String
  lastActiveTimes : LastActive
deriving DecidableEq, Repr

/-- The state at server start: all three bindings empty. -/
def initState : ServerState := ⟨[], [], []⟩

/-- A client channel of the WebSocket server: its identity and whether its
`readyState` equals `WebSocket.OPEN`. -/
structure Chan where
  cid : Nat
  isOpen : Bool
deriving DecidableEq, Repr

/-- Payloads the server writes to a channel: a `history` message, a presence
snapshot (`JSON.stringify(userState)`), or a relayed raw `send` frame. -/
inductive OutMsg where
  | history (data : List String)
  | snapshot (users : List User)
  | relay (payload : String) (binary : Bool)
deriving DecidableEq, Repr

/-- The channels whose `readyState` is `OPEN`. -/
def openClients (cs : List Chan) : List Chan :=
  cs.filter (fun c => c.isOpen)

/-- One fan-out:
`[...wsServer.clients].filter(o => o.readyState === OPEN).forEach(o => o.send(m))`,
returned as the list of `(channel id, payload)` sends. -/
def broadcastAll (cs : List Chan) (m : OutMsg) : List (Nat × OutMsg) :=
  (openClients cs).map (fun c => (c.cid, m))

/-- A successfully JSON-parsed inbound message, by its `type` discriminator.
`msgJoin` carries the parsed `user` object (any id the client sent, and the
name); `send` carries the raw payload and its binary flag; `other` is any
unrecognized `type`, which matches none of the handler's branches. -/
inductive InMsg where
  | ping (name : String)
  | msgJoin (uid : Option String) (name : String)
  | msgExit (name : String)
  | send (payload : String) (binary : Bool)
  | clear
  | other
deriving DecidableEq, Repr

/-- The `ws.on("message")` handler after a successful `JSON.parse`, run at
time `now = Date.now()` with client set `cs`.  Returns the new global state
and the sends performed.  Branches mirror the source line by line:
`ping` writes `lastActiveTimes[name]` unconditionally and returns; `join`
pushes the user and sets the timestamp only when no user of that name
exists, then always broadcasts the (possibly updated) list; `exit` splices
the first user of that name and deletes its timestamp when found, then
always broadcasts; `send` appends to the history and relays the raw frame;
`clear` empties the history and broadcasts an empty `history` payload. -/
def handleMsg (cs : List Chan) (now : Nat) (st : ServerState) :
    InMsg → ServerState × List (Nat × OutMsg)
  | .ping n =>
      ({ st with lastActiveTimes := laSet n now st.lastActiveTimes }, [])
  | .msgJoin uid n =>
      let isExist := st.userState.find? (fun u => u.name == n)
      let st' :=
        if isExist.isSome then st
        else
          { st with
              userState := st.userState ++ [⟨uid, n, none⟩],
              lastActiveTimes := laSet n now st.lastActiveTimes }
      (st', broadcastAll cs (.snapshot st'.userState))
  | .msgExit n =>
      let st' :=
        match st.userState.findIdx? (fun u => u.name == n) with
        | some idx =>
            { st with
                userState := st.userState.eraseIdx idx,
                lastActiveTimes := laDel n st.lastActiveTimes }
        | none => st
      (st', broadcastAll cs (.snapshot st'.userState))
  | .send p b =>
      ({ st with messageHistory := st.messageHistory ++ [p] },
        broadcastAll cs (.relay p b))
  | .clear =>
      ({ st with messageHistory := [] }, broadcastAll cs (.history []))
  | .other => (st, [])

/-- The raw `ws.on("message")` listener.  `JSON.parse(msg)` is modelled by
an `Option InMsg`, `none` when the payload is not valid JSON.  The listener
has no try/catch, so a parse failure is a thrown `SyntaxError` that escapes
the listener before any branch runs, modelled as `Except.error`. -/
def handleRawMessage (cs : List Chan) (now : Nat) (st : ServerState) :
    Option InMsg → Except Unit (ServerState × List (Nat × OutMsg))
  | none => .error ()
  | some m => .ok (handleMsg cs now st m)

/-- The `ws.on("close")` handler for channel `ch`:
`userState.findIndex(user => user.ws === ws)`; on a hit, splice that user
out, delete its last-active entry and broadcast the updated list; on a miss
(`-1`) nothing happens and nothing is sent. -/
def handleClose (cs : List Chan) (ch : Nat) (st : ServerState) :
    ServerState × List (Nat × OutMsg) :=
  match st.userState.findIdx? (fun u => u.ws == some ch) with
  | some idx =>
      let du := st.userState.getD idx ⟨none, "", none⟩
      let st' :=
        { st with
            userState := st.userState.eraseIdx idx,
            lastActiveTimes := laDel du.name st.lastActiveTimes }
      (st', broadcastAll cs (.snapshot st'.userState))
  | none => (st, [])

/-- Body of a `POST /new-user` response. -/
inductive RegBody where
  | ok (uid : String) (name : String)
  | err (message : String)
deriving DecidableEq, Repr

/-- The `POST /new-user` handler.  `freshId` is the `randomUUID()` value
generated for this request.  The request body is modelled by its `name`
field: `none` is an empty body (`Object.keys(request.body).length === 0`),
`some name` a body carrying that name.  Returns the
`(HTTP status, response body)` pair (200 is the Express default when no
`.status(...)` is set) and the new state. -/
def newUserHandler (freshId : String) (body : Option String) (st : ServerState) :
    (Nat × RegBody) × ServerState :=
  match body with
  | none => ((400, .err "This name is already taken!"), st)
  | some name =>
      match st.userState.find? (fun u => u.name == name) with
      | none =>
          ((200, .ok freshId name),
            { st with userState := st.userState ++ [⟨some freshId, name, none⟩] })
      | some _ => ((409, .err "This name is already taken!"), st)

/-- One truthiness-and-staleness test of the reaper:
`lastActiveTimes[user.name] && currentTime - lastActiveTimes[user.name] > 5000`.
A missing entry is `undefined` (falsy), and a stored `0` is also falsy.
JS number subtraction agrees with truncated `Nat` subtraction here: a
negative difference and a truncated-to-zero difference both fail `> 5000`. -/
def isStale (now : Nat) (la : LastActive) (n : String) : Bool :=
  match laGet la n with
  | some t => t != 0 && decide (5000 < now - t)
  | none => false

/-- Body of the reaper's `setInterval` callback:
`userState.forEach((user, index) => { if (stale) { splice(index, 1); delete
lastActiveTimes[user.name]; broadcastUserState(); } })`.  `forEach` fixes
the iteration count to the initial length (`fuel`) before the first call and
visits index `k` only while the (possibly shortened) array still has an
element there; a splice shifts later elements down one slot, so the element
that moves into the spliced position is never visited by this sweep.
`bc` counts the `broadcastUserState()` calls, one per eviction. -/
def sweepAux (now : Nat) :
    Nat → Nat → List User → LastActive → Nat → List User × LastActive × Nat
  | 0, _, us, la, bc => (us, la, bc)
  | fuel + 1, k, us, la, bc =>
      if h : k < us.length then
        if isStale now la (us.get ⟨k, h⟩).name then
          sweepAux now fuel (k + 1) (us.eraseIdx k)
            (laDel (us.get ⟨k, h⟩).name la) (bc + 1)
        else
          sweepAux now fuel (k + 1) us la bc
      else
        sweepAux now fuel (k + 1) us la bc

/-- One reaper sweep at `currentTime = now`. -/
def sweepOnce (now : Nat) (us : List User) (la : LastActive) :
    List User × LastActive × Nat :=
  sweepAux now us.length 0 us la 0

/-- Iterated reaper sweeps at the given sequence of times. -/
def runSweeps : List Nat → List User → LastActive → List User × LastActive
  | [], us, la => (us, la)
  | t :: ts, us, la =>
      let r := sweepOnce t us la
      runSweeps ts r.1 r.2.1

/-- Any state-mutating occurrence the server processes: a parsed inbound
message at some time, a registration request, a reaper sweep, or a
transport-level close of a channel. -/
inductive Event where
  | inbound (now : Nat) (m : InMsg)
  | register (freshId : String) (body : Option String)
  | sweep (now : Nat)
  | close (ch : Nat)

/-- State transition of one event (the sends are irrelevant here, so the
handlers run with an empty client set). -/
def stepEv (st : ServerState) : Event → ServerState
  | .inbound now m => (handleMsg [] now st m).1
  | .register freshId body => (newUserHandler freshId body st).2
  | .sweep now =>
      let r := sweepOnce now st.userState st.lastActiveTimes
      { st with userState := r.1, lastActiveTimes := r.2.1 }
  | .close ch => (handleClose [] ch st).1

/-- The server state after processing `evs` from server start. -/
def run (evs : List Event) : ServerState :=
  evs.foldl stepEv initState

/-- A `join` or `exit` event as the Session Handler dispatches them;
a `join` happens at some `Date.now()` value. -/
inductive JEvent where
  | jn (uid : Option String) (name : String) (now : Nat)
  | ex (name : String)

/-- State transition of one `join`/`exit` event. -/
def stepJE (st : ServerState) : JEvent → ServerState
  | .jn uid n now => (handleMsg [] now st (.msgJoin uid n)).1
  | .ex n => (handleMsg [] 0 st (.msgExit n)).1

/-- The state after the Session Handler processes a sequence of `join` and
`exit` events starting from `st`. -/
def runJE (st : ServerState) (evs : List JEvent) : ServerState :=
  evs.foldl stepJE st

/-! ### Helper lemmas -/

theorem laGet_laDel (w n : String) (la : LastActive) :
    laGet (laDel w la) n = if n = w then none else laGet la n := by
  induction la with
  | nil => simp [laGet, laDel]
  | cons p la ih =>
      by_cases hw : p.1 = w <;> by_cases hn : p.1 = n <;>
        simp_all [laGet, laDel, List.filter_cons, List.find?_cons,
          bne_iff_ne, beq_iff_eq]

theorem isStale_laDel (now : Nat) (w n : String) (la : LastActive) :
    isStale now (laDel w la) n = if n = w then false else isStale now la n := by
  unfold isStale
  rw [laGet_laDel]
  by_cases h : n = w <;> simp [h]

theorem sweepAux_sublist (now : Nat) :
    ∀ fuel k us la bc, ((sweepAux now fuel k us la bc).1).Sublist us := by
  intro fuel
  induction fuel with
  | zero => intro k us la bc; exact List.Sublist.refl us
  | succ f ih =>
      intro k us la bc
      rw [sweepAux]
      by_cases h : k < us.length
      · rw [dif_pos h]
        by_cases hs : isStale now la (us.get ⟨k, h⟩).name
        · rw [if_pos hs]
          exact (ih _ _ _ _).trans (List.eraseIdx_sublist us k)
        · rw [if_neg hs]
          exact ih _ _ _ _
      · rw [dif_neg h]
        exact ih _ _ _ _

theorem sweepAux_mem_of_not_stale (now : Nat) :
    ∀ fuel k us la bc (u : User), u ∈ us → isStale now la u.name = false →
      u ∈ (sweepAux now fuel k us la bc).1 := by
  intro fuel
  induction fuel with
  | zero => intro k us la bc u hu _; exact hu
  | succ f ih =>
      intro k us la bc u hu hns
      rw [sweepAux]
      by_cases h : k < us.length
      · rw [dif_pos h]
        by_cases hs : isStale now la (us.get ⟨k, h⟩).name
        · rw [if_pos hs]
          apply ih
          · rw [List.mem_eraseIdx_iff_getElem]
            obtain ⟨i, hi, hieq⟩ := List.mem_iff_getElem.mp hu
            refine ⟨i, hi, ?_, hieq⟩
            rintro rfl
            have hgu : us.get ⟨i, h⟩ = u := hieq
            rw [hgu] at hs
            rw [hns] at hs
            exact absurd hs (by simp)
          · rw [isStale_laDel]
            by_cases hw : u.name = (us.get ⟨k, h⟩).name <;> simp [hw, hns]
        · rw [if_neg hs]
          exact ih _ _ _ _ u hu hns
      · rw [dif_neg h]
        exact ih _ _ _ _ u hu hns

theorem sweepAux_laGet_none (now : Nat) :
    ∀ fuel k us la bc (n : String), laGet la n = none →
      laGet (sweepAux now fuel k us la bc).2.1 n = none := by
  intro fuel
  induction fuel with
  | zero => intro k us la bc n hla; exact hla
  | succ f ih =>
      intro k us la bc n hla
      rw [sweepAux]
      by_cases h : k < us.length
      · rw [dif_pos h]
        by_cases hs : isStale now la (us.get ⟨k, h⟩).name
        · rw [if_pos hs]
          apply ih
          rw [laGet_laDel]
          by_cases hw : n = (us.get ⟨k, h⟩).name <;> simp [hw, hla]
        · rw [if_neg hs]
          exact ih _ _ _ _ n hla
      · rw [dif_neg h]
        exact ih _ _ _ _ n hla

theorem sweepAux_count (now : Nat) :
    ∀ fuel k us la bc,
      (sweepAux now fuel k us la bc).2.2 + (sweepAux now fuel k us la bc).1.length
        = bc + us.length := by
  intro fuel
  induction fuel with
  | zero => intro k us la bc; rfl
  | succ f ih =>
      intro k us la bc
      rw [sweepAux]
      by_cases h : k < us.length
      · rw [dif_pos h]
        by_cases hs : isStale now la (us.get ⟨k, h⟩).name
        · rw [if_pos hs]
          have hrec := ih (k + 1) (us.eraseIdx k)
            (laDel (us.get ⟨k, h⟩).name la) (bc + 1)
          rw [List.length_eraseIdx_of_lt h] at hrec
          omega
        · rw [if_neg hs]
          exact ih _ _ _ _
      · rw [dif_neg h]
        exact ih _ _ _ _

theorem handleMsg_ws_none (cs : List Chan) (now : Nat) (st : ServerState)
    (m : InMsg) (h : ∀ u ∈ st.userState, u.ws = none) :
    ∀ u ∈ (handleMsg cs now st m).1.userState, u.ws = none := by
  cases m with
  | ping n => exact h
  | msgJoin uid n =>
      by_cases hex : (st.userState.find? (fun u => u.name == n)).isSome
      · simpa [handleMsg, hex] using h
      · intro u hu
        simp only [handleMsg, hex, if_false] at hu
        rcases List.mem_append.mp hu with hl | hr
        · exact h u hl
        · simp only [List.mem_singleton] at hr
          rw [hr]
  | msgExit n =>
      cases hidx : st.userState.findIdx? (fun u => u.name == n) with
      | none => simpa [handleMsg, hidx] using h
      | some idx =>
          intro u hu
          simp only [handleMsg, hidx] at hu
          exact h u (List.mem_of_mem_eraseIdx hu)
  | send p b => exact h
  | clear => exact h
  | other => exact h

theorem newUserHandler_ws_none (freshId : String) (body : Option String)
    (st : ServerState) (h : ∀ u ∈ st.userState, u.ws = none) :
    ∀ u ∈ (newUserHandler freshId body st).2.userState, u.ws = none := by
  cases body with
  | none => exact h
  | some name =>
      cases hex : st.userState.find? (fun u => u.name == name) with
      | none =>
          intro u hu
          simp only [newUserHandler, hex] at hu
          rcases List.mem_append.mp hu with hl | hr
          · exact h u hl
          · simp only [List.mem_singleton] at hr
            rw [hr]
      | some w => simpa [newUserHandler, hex] using h

theorem stepEv_ws_none (st : ServerState)
    (h : ∀ u ∈ st.userState, u.ws = none) (e : Event) :
    ∀ u ∈ (stepEv st e).userState, u.ws = none := by
  cases e with
  | inbound now m => exact handleMsg_ws_none [] now st m h
  | register freshId body => exact newUserHandler_ws_none freshId body st h
  | sweep now =>
      intro u hu
      exact h u ((sweepAux_sublist now _ _ _ _ _).subset hu)
  | close ch =>
      cases hidx : st.userState.findIdx? (fun u => u.ws == some ch) with
      | none => simpa [stepEv, handleClose, hidx] using h
      | some idx =>
          intro u hu
          simp only [stepEv, handleClose, hidx] at hu
          exact h u (List.mem_of_mem_eraseIdx hu)

theorem run_ws_none (evs : List Event) :
    ∀ u ∈ (run evs).userState, u.ws = none := by
  have main : ∀ (l : List Event) (st : ServerState),
      (∀ u ∈ st.userState, u.ws = none) →
      ∀ u ∈ (l.foldl stepEv st).userState, u.ws = none := by
    intro l
    induction l with
    | nil => intro st h; exact h
    | cons e l ih =>
        intro st h
        exact ih (stepEv st e) (stepEv_ws_none st h e)
  exact main evs initState (by intro u hu; cases hu)

/-- In every state the server can reach, the `ws.on("close")` handler is a
no-op that sends nothing: `findIndex(user => user.ws === ws)` compares a
JSON-parsed value against the server's socket object and never matches. -/
theorem close_always_noop (evs : List Event) (cs : List Chan) (ch : Nat) :
    handleClose cs ch (run evs) = (run evs, []) := by
  have hnone : (run evs).userState.findIdx? (fun u => u.ws == some ch) = none := by
    rw [List.findIdx?_eq_none_iff]
    intro u hu
    simp [run_ws_none evs u hu]
  simp [handleClose, hnone]

/-! ### Claim theorems -/

/-- C1: for every sequence of `join` and `exit` events the Session Handler
processes from a duplicate-free table, `userState` never contains two
users with the same name; a `join` for a name already present changes
nothing, and an `exit` removes at most the one (first) entry with that
name — every user with a different name survives, and the table shrinks by
at most one. -/
theorem join_exit_no_duplicate_names (st : ServerState)
    (h : (st.userState.map User.name).Nodup) :
    (∀ evs : List JEvent, ((runJE st evs).userState.map User.name).Nodup) ∧
    (∀ (cs : List Chan) (now : Nat) (uid : Option String) (n : String),
      (st.userState.find? (fun u => u.name == n)).isSome = true →
      (handleMsg cs now st (.msgJoin uid n)).1 = st) ∧
    (∀ (cs : List Chan) (now : Nat) (n : String) (u : User),
      u ∈ st.userState → u.name ≠ n →
      u ∈ (handleMsg cs now st (.msgExit n)).1.userState) ∧
    (∀ (cs : List Chan) (now : Nat) (n : String),
      st.userState.length ≤
        (handleMsg cs now st (.msgExit n)).1.userState.length + 1) := by
  refine ⟨?_, ?_, ?_, ?_⟩
  · have step : ∀ (s : ServerState), (s.userState.map User.name).Nodup →
        ∀ e : JEvent, ((stepJE s e).userState.map User.name).Nodup := by
      intro s hs e
      cases e with
      | jn uid n now =>
          by_cases hex : (s.userState.find? (fun u => u.name == n)).isSome
          · simpa [stepJE, handleMsg, hex] using hs
          · have hnone : s.userState.find? (fun u => u.name == n) = none :=
              Option.not_isSome_iff_eq_none.mp hex
            have hn : ∀ u ∈ s.userState, ¬u.name = n := by
              intro u hu
              have := List.find?_eq_none.mp hnone u hu
              simpa using this
            simp [stepJE, handleMsg, hex, List.nodup_append, hs]
            exact hn
      | ex n =>
          cases hidx : s.userState.findIdx? (fun u => u.name == n) with
          | none => simpa [stepJE, handleMsg, hidx] using hs
          | some idx =>
              have hsub : ((s.userState.eraseIdx idx).map User.name).Sublist
                  (s.userState.map User.name) :=
                (List.eraseIdx_sublist s.userState idx).map User.name
              simpa [stepJE, handleMsg, hidx] using hs.sublist hsub
    have main : ∀ (evs : List JEvent) (s : ServerState),
        (s.userState.map User.name).Nodup →
        ((runJE s evs).userState.map User.name).Nodup := by
      intro evs
      induction evs with
      | nil => intro s hs; exact hs
      | cons e l ih => intro s hs; exact ih (stepJE s e) (step s hs e)
    intro evs
    exact main evs st h
  · intro cs now uid n hex
    simp [handleMsg, hex]
  · intro cs now n u hu hname
    cases hidx : st.userState.findIdx? (fun u => u.name == n) with
    | none => simpa [handleMsg, hidx] using hu
    | some idx =>
        obtain ⟨hlt, hp, -⟩ := List.findIdx?_eq_some_iff_getElem.mp hidx
        simp only [handleMsg, hidx]
        rw [List.mem_eraseIdx_iff_getElem]
        obtain ⟨i, hi, hieq⟩ := List.mem_iff_getElem.mp hu
        refine ⟨i, hi, ?_, hieq⟩
        rintro rfl
        have hp2 : (u.name == n) = true := by
          rw [← hieq]
          exact hp
        simp only [beq_iff_eq] at hp2
        exact hname hp2
  · intro cs now n
    cases hidx : st.userState.findIdx? (fun u => u.name == n) with
    | none => simp [handleMsg, hidx]
    | some idx =>
        obtain ⟨hlt, -, -⟩ := List.findIdx?_eq_some_iff_getElem.mp hidx
        simp only [handleMsg, hidx]
        rw [List.length_eraseIdx_of_lt hlt]
        omega

/-- C1 witness: from the empty start state, the sequence join "a",
join "a" again, exit "a" keeps the name column duplicate-free. -/
theorem join_exit_no_duplicate_names_witness :
    ((runJE initState [.jn none "a" 5, .jn none "a" 9, .ex "a"]).userState.map
        User.name).Nodup :=
  (join_exit_no_duplicate_names initState (by decide)).1
    [.jn none "a" 5, .jn none "a" 9, .ex "a"]

/-- C2 (amended): a reaper sweep only ever removes participants that are
stale at sweep time, fires exactly one presence broadcast per eviction, and
every participant touched within the threshold (or with no last-seen entry)
survives; but because the sweep splices while it iterates, it does not
promise to remove every stale participant in that single pass. -/
theorem reaper_sweep_amended (now : Nat) (us : List User) (la : LastActive) :
    ((sweepOnce now us la).1).Sublist us ∧
    (∀ u : User, u ∈ us → isStale now la u.name = false →
      u ∈ (sweepOnce now us la).1) ∧
    (∀ u : User, u ∈ us → u ∉ (sweepOnce now us la).1 →
      isStale now la u.name = true) ∧
    (sweepOnce now us la).2.2 = us.length - (sweepOnce now us la).1.length := by
  refine ⟨sweepAux_sublist now _ _ _ _ _,
    fun u hu hns => sweepAux_mem_of_not_stale now _ _ _ _ _ u hu hns, ?_, ?_⟩
  · intro u hu hmem
    by_contra hfalse
    have hns : isStale now la u.name = false := by
      cases hb : isStale now la u.name
      · rfl
      · exact absurd hb hfalse
    exact hmem (sweepAux_mem_of_not_stale now _ _ _ _ _ u hu hns)
  · have hc := sweepAux_count now us.length 0 us la 0
    have hlen : ((sweepAux now us.length 0 us la 0).1).length ≤ us.length :=
      (sweepAux_sublist now _ _ _ _ _).length_le
    unfold sweepOnce
    omega

/-- C2 witness: with "a" stale and "b" untouched (no last-seen entry), the
sweep keeps "b". -/
theorem reaper_sweep_amended_witness :
    (⟨none, "b", none⟩ : User) ∈
      (sweepOnce 10000 [⟨none, "a", none⟩, ⟨none, "b", none⟩] [("a", 1)]).1 :=
  (reaper_sweep_amended 10000 [⟨none, "a", none⟩, ⟨none, "b", none⟩]
      [("a", 1)]).2.1 ⟨none, "b", none⟩ (by decide) (by decide)

/-- C2 counterexample: with "a" and "b" adjacent and both stale at
`now = 10000`, the single sweep evicts "a" but leaves the still-stale "b"
in the table — the splice inside `forEach` skips the element that shifted
into the removed slot. -/
theorem sweep_misses_adjacent_stale :
    isStale 10000 [("a", 1), ("b", 1)] "b" = true ∧
    (sweepOnce 10000 [⟨none, "a", none⟩, ⟨none, "b", none⟩]
        [("a", 1), ("b", 1)]).1 = [⟨none, "b", none⟩] := by
  decide

/-- C3 (code_bug evidence): after "alice" joins from channel 1 and "bob"
from channel 2, the transport-level close of channel 1 removes nothing and
broadcasts nothing: `findIndex(user => user.ws === ws)` compares JSON-parsed
user objects (which cannot hold the server's socket reference) against the
socket, so no identity is ever bound to a channel and "alice" stays. -/
theorem close_after_join_keeps_user :
    handleClose [⟨1, true⟩, ⟨2, true⟩] 1
        (run [.inbound 100 (.msgJoin none "alice"),
              .inbound 200 (.msgJoin none "bob")])
      = (run [.inbound 100 (.msgJoin none "alice"),
              .inbound 200 (.msgJoin none "bob")], []) ∧
    (run [.inbound 100 (.msgJoin none "alice"),
          .inbound 200 (.msgJoin none "bob")]).userState.map User.name
      = ["alice", "bob"] := by
  decide

/-- C4 (code_bug evidence): a message `JSON.parse` cannot decode makes the
`message` listener throw before any branch runs: the failure escapes the
listener as an exception (`Except.error`) rather than being caught, so no
state is touched but nothing protects the connection or the process from
the uncaught throw. -/
theorem malformed_message_escapes (cs : List Chan) (now : Nat)
    (st : ServerState) :
    handleRawMessage cs now st none = Except.error () := rfl

/-- C5 counterexample: a `ping` for the name "ghost", absent from the
Presence Table, is not a complete no-op — it writes the current time into
`lastActiveTimes`, so the state changes. -/
theorem ping_unknown_not_noop :
    initState.userState.find? (fun u => u.name == "ghost") = none ∧
    (handleMsg [] 1000 initState (.ping "ghost")).1 ≠ initState := by
  decide

/-- C5 (amended): a `ping` for a name not present in the Presence Table
raises no error, resurrects nothing and leaves `userState` and
`messageHistory` unchanged, and sends nothing — but it does write the
current time into the last-seen map under that name. -/
theorem ping_unknown_amended (cs : List Chan) (now : Nat) (st : ServerState)
    (n : String) (_h : st.userState.find? (fun u => u.name == n) = none) :
    handleMsg cs now st (.ping n) =
      ({ st with lastActiveTimes := laSet n now st.lastActiveTimes }, []) := rfl

/-- C5 witness. -/
theorem ping_unknown_amended_witness :
    handleMsg [] 42 initState (.ping "ghost") =
      ({ initState with lastActiveTimes := laSet "ghost" 42 [] }, []) :=
  ping_unknown_amended [] 42 initState "ghost" (by decide)

/-- C6 counterexample: after "a" joins at time 1000, a second `join` for
"a" at time 2000 leaves the state — including the last-seen timestamp,
still 1000 — completely unchanged, instead of refreshing the timestamp. -/
theorem join_present_keeps_old_timestamp :
    (handleMsg [] 2000 (handleMsg [] 1000 initState (.msgJoin none "a")).1
        (.msgJoin none "a")).1 =
      (handleMsg [] 1000 initState (.msgJoin none "a")).1 ∧
    laGet (handleMsg [] 1000 initState
        (.msgJoin none "a")).1.lastActiveTimes "a" = some 1000 := by
  decide

/-- C6 (amended): a `join` whose identity is already present leaves the
whole state unchanged — no duplicate insert, and the last-seen timestamp is
not refreshed either (it is set only on insert) — while the presence
snapshot is still broadcast to every open channel. -/
theorem join_present_amended (cs : List Chan) (now : Nat) (st : ServerState)
    (uid : Option String) (n : String)
    (h : (st.userState.find? (fun u => u.name == n)).isSome = true) :
    handleMsg cs now st (.msgJoin uid n) =
      (st, broadcastAll cs (.snapshot st.userState)) := by
  simp [handleMsg, h]

/-- C6 witness. -/
theorem join_present_amended_witness :
    handleMsg [⟨7, true⟩] 2000
        (⟨[⟨none, "a", none⟩], [], [("a", 1000)]⟩ : ServerState)
        (.msgJoin none "a") =
      ((⟨[⟨none, "a", none⟩], [], [("a", 1000)]⟩ : ServerState),
        broadcastAll [⟨7, true⟩]
          (.snapshot [⟨none, "a", none⟩])) :=
  join_present_amended [⟨7, true⟩] 2000
    ⟨[⟨none, "a", none⟩], [], [("a", 1000)]⟩ none "a" (by decide)

/-- C7: the registration endpoint answers an empty/missing payload with
HTTP 400, a taken name with HTTP 409 — so a client can tell the two
failure responses apart by status — and otherwise succeeds with `status:
ok`, the fresh id and the name, pushing the new user; when the fresh id is
new to the table, exactly one stored user carries it afterwards. -/
theorem new_user_endpoint (freshId n : String) (st : ServerState) :
    newUserHandler freshId none st
      = ((400, .err "This name is already taken!"), st) ∧
    ((st.userState.find? (fun u => u.name == n)).isSome = true →
      newUserHandler freshId (some n) st
          = ((409, .err "This name is already taken!"), st) ∧
      (newUserHandler freshId none st).1.1
        ≠ (newUserHandler freshId (some n) st).1.1) ∧
    (st.userState.find? (fun u => u.name == n) = none →
      newUserHandler freshId (some n) st
          = ((200, .ok freshId n),
              { st with
                  userState := st.userState ++ [⟨some freshId, n, none⟩] }) ∧
      ((∀ u ∈ st.userState, u.uid ≠ some freshId) →
        ((newUserHandler freshId (some n) st).2.userState.filter
            (fun u => u.uid == some freshId)).length = 1)) := by
  refine ⟨rfl, ?_, ?_⟩
  · intro h
    obtain ⟨u, hu⟩ := Option.isSome_iff_exists.mp h
    constructor
    · simp [newUserHandler, hu]
    · simp [newUserHandler, hu]
  · intro h
    constructor
    · simp [newUserHandler, h]
    · intro hid
      have h0 : st.userState.filter (fun u => u.uid == some freshId) = [] := by
        rw [List.filter_eq_nil_iff]
        intro u hu
        simp [hid u hu]
      simp [newUserHandler, h, List.filter_append, h0]

/-- C7 witness: with "alice" registered under id "id0", registering "alice"
again fails with 409 and registering "bob" succeeds with the fresh id. -/
theorem new_user_endpoint_witness :
    newUserHandler "id1" (some "alice")
        (⟨[⟨some "id0", "alice", none⟩], [], []⟩ : ServerState)
      = ((409, .err "This name is already taken!"),
          (⟨[⟨some "id0", "alice", none⟩], [], []⟩ : ServerState)) ∧
    newUserHandler "id1" (some "bob")
        (⟨[⟨some "id0", "alice", none⟩], [], []⟩ : ServerState)
      = ((200, .ok "id1" "bob"),
          (⟨[⟨some "id0", "alice", none⟩, ⟨some "id1", "bob", none⟩],
            [], []⟩ : ServerState)) :=
  ⟨((new_user_endpoint "id1" "alice"
      ⟨[⟨some "id0", "alice", none⟩], [], []⟩).2.1 (by decide)).1,
    ((new_user_endpoint "id1" "bob"
      ⟨[⟨some "id0", "alice", none⟩], [], []⟩).2.2 (by decide)).1⟩

/-- C8: after a `clear` event the history snapshot is the empty sequence,
the Presence Table and last-seen map are untouched, and exactly the open
channels each receive the empty `history` payload. -/
theorem clear_resets_history (cs : List Chan) (now : Nat) (st : ServerState) :
    handleMsg cs now st .clear =
      ({ st with messageHistory := [] },
        (cs.filter (fun c => c.isOpen)).map
          (fun c => (c.cid, OutMsg.history []))) := rfl

/-- C9: an `exit` for a name absent from `userState` leaves the whole state
unchanged, yet the full presence snapshot is still broadcast to every open
channel — the fan-out sits outside the `idx !== -1` guard. -/
theorem exit_unknown_still_broadcasts (cs : List Chan) (now : Nat)
    (st : ServerState) (n : String)
    (h : st.userState.findIdx? (fun u => u.name == n) = none) :
    handleMsg cs now st (.msgExit n) =
      (st, broadcastAll cs (.snapshot st.userState)) := by
  simp [handleMsg, h]

/-- C9 witness: an `exit` for "ghost" in the empty state still sends the
snapshot to the open channel 1 (and not to the closed channel 2). -/
theorem exit_unknown_still_broadcasts_witness :
    handleMsg [⟨1, true⟩, ⟨2, false⟩] 9 initState (.msgExit "ghost") =
      (initState,
        broadcastAll [⟨1, true⟩, ⟨2, false⟩] (.snapshot [])) :=
  exit_unknown_still_broadcasts [⟨1, true⟩, ⟨2, false⟩] 9 initState "ghost"
    (by decide)

/-- C10: a user in `userState` with no `lastActiveTimes` entry (as the
registration endpoint creates them) is never evicted, no matter how many
sweeps run nor how late they run: the `lastActiveTimes[user.name] &&`
guard is falsy for it at every sweep. -/
theorem unpinged_user_survives_sweeps (times : List Nat) (us : List User)
    (la : LastActive) (u : User) (hu : u ∈ us)
    (hla : laGet la u.name = none) :
    u ∈ (runSweeps times us la).1 := by
  induction times generalizing us la with
  | nil => exact hu
  | cons t ts ih =>
      have hns : isStale t la u.name = false := by
        unfold isStale
        rw [hla]
      have h1 : u ∈ (sweepOnce t us la).1 :=
        sweepAux_mem_of_not_stale t _ _ _ _ _ u hu hns
      have h2 : laGet (sweepOnce t us la).2.1 u.name = none :=
        sweepAux_laGet_none t _ _ _ _ _ u.name hla
      exact ih _ _ h1 h2

/-- C10 witness: a user registered as "reg" and never pinged survives two
sweeps far beyond the threshold. -/
theorem unpinged_user_survives_sweeps_witness :
    (⟨some "i", "reg", none⟩ : User) ∈
      (runSweeps [100000, 200000] [⟨some "i", "reg", none⟩] []).1 :=
  unpinged_user_survives_sweeps [100000, 200000] [⟨some "i", "reg", none⟩]
    [] ⟨some "i", "reg", none⟩ (by decide) (by decide)

end WsServer
